import Mathlib

/-!
Verification of the LiteLLM Formatter n8n node
(`src/nodes/LiteLLMFormatter/LiteLlmFormatter.node.ts`).

The document type is a shallow embedding of the JSON-compatible JavaScript
values the node manipulates: `null`, booleans, numbers (integers — no claim
involves fractional numbers), strings, arrays and objects. An object is the
ordered association list of its fields, as JavaScript objects are ordered;
reading a property takes the first matching key and assignment replaces the
first matching key in place or appends a fresh key at the end, which is the
JavaScript behaviour on objects (which cannot actually repeat a key).

JavaScript-specific behaviour embedded explicitly:
  * property read on `null` throws a `TypeError` (`null.message`);
  * truthiness: `null`, `false`, `0` and `""` are falsy, everything else
    (including `[]` and `{}`) is truthy;
  * property assignment on an array succeeds but a named (non-index)
    property is invisible to the JSON data model, so the JSON value is
    unchanged; property assignment on a primitive throws a `TypeError`
    (the emitted CommonJS carries `"use strict"`).

The `NodeOperationError`s the source raises are modelled structurally as
`FmtError`: the source encodes the choice index and item index inside the
message string and options object; here they are constructor fields.
-/

namespace LiteLLM

/-- JSON-compatible JavaScript values. -/
inductive JSON where
  | null : JSON
  | bool : Bool → JSON
  | num : Int → JSON
  | str : String → JSON
  | arr : List JSON → JSON
  | obj : List (String × JSON) → JSON

/-- JavaScript truthiness of a JSON value. -/
def JSON.truthy : JSON → Bool
  | .null => false
  | .bool b => b
  | .num n => n != 0
  | .str s => s != ""
  | .arr _ => true
  | .obj _ => true

/-- First-match lookup in an object's ordered field list (JavaScript
property read; a JS object cannot repeat a key, so first match is exact). -/
def lookupField : List (String × JSON) → String → Option JSON
  | [], _ => none
  | (k', v) :: rest, k => if k' = k then some v else lookupField rest k

/-- Property read `target[k]`: `undefined` is `none`; non-objects (other
than `null`, which is matched away before every read in the source) have no
own string properties in the JSON data model. -/
def JSON.get : JSON → String → Option JSON
  | .obj fs, k => lookupField fs k
  | _, _ => none

/-- Property assignment on an object's field list: replace the first
occurrence of the key, or append the key at the end when absent (the
JavaScript insertion-order behaviour). -/
def setField : List (String × JSON) → String → JSON → List (String × JSON)
  | [], k, v => [(k, v)]
  | (k', v') :: rest, k, v =>
      if k' = k then (k, v) :: rest else (k', v') :: setField rest k v

/-- Total property assignment used where the source guarantees the target
is an object (it just read a property off it). -/
def JSON.set : JSON → String → JSON → JSON
  | .obj fs, k, v => .obj (setField fs k v)
  | j, _, _ => j

mutual

/-- `JSON.parse(JSON.stringify(data))`: the deep clone the source performs
at the top of `formatLiteLLMResponse`. On JSON-compatible values the
round-trip reproduces the value; the clone recurses through arrays and
objects. -/
def deepClone : JSON → JSON
  | .null => .null
  | .bool b => .bool b
  | .num n => .num n
  | .str s => .str s
  | .arr xs => .arr (deepCloneList xs)
  | .obj fs => .obj (deepCloneFields fs)

/-- Clone of every element of an array. -/
def deepCloneList : List JSON → List JSON
  | [] => []
  | x :: xs => deepClone x :: deepCloneList xs

/-- Clone of every field of an object. -/
def deepCloneFields : List (String × JSON) → List (String × JSON)
  | [] => []
  | (k, v) :: fs => (k, deepClone v) :: deepCloneFields fs

end

/-- The errors `execute` and `formatLiteLLMResponse` can surface, modelled
structurally. `missingField`, `parseError`, `invalidStructure` and
`missingMessage` are the `NodeOperationError`s the source throws (their
indices live in the message string / options object there); `typeError` is
a JavaScript `TypeError` escaping the try block; `wrapped` is the outer
catch re-wrapping a non-`NodeOperationError` with the item index. -/
inductive FmtError where
  | missingField : String → Nat → FmtError
  | parseError : String → Nat → FmtError
  | invalidStructure : Nat → FmtError
  | missingMessage : (choiceIndex : Nat) → (itemIndex : Nat) → FmtError
  | typeError : String → FmtError
  | wrapped : (itemIndex : Nat) → String → FmtError
deriving DecidableEq, Repr

/-- JavaScript property assignment `target[k] = v` where the target may not
be an object: on an object it sets the field; on an array the named
property is accepted but invisible to the JSON data model, so the value is
unchanged; on `null` or a primitive it throws a `TypeError` (strict-mode
emitted code). -/
def jsAssign (target : JSON) (k : String) (v : JSON) : Except FmtError JSON :=
  match target with
  | .obj fs => .ok (.obj (setField fs k v))
  | .arr xs => .ok (.arr xs)
  | _ => .error (.typeError ("cannot create property " ++ k))

/-- `if (choice.message.tool_calls === null) choice.message.tool_calls = [];` -/
def coerceToolCalls (m : JSON) : Except FmtError JSON :=
  match m.get "tool_calls" with
  | some .null => jsAssign m "tool_calls" (.arr [])
  | _ => .ok m

/-- `if (choice.message.function_call === null) choice.message.function_call = {};` -/
def coerceFunctionCall (m : JSON) : Except FmtError JSON :=
  match m.get "function_call" with
  | some .null => jsAssign m "function_call" (.obj [])
  | _ => .ok m

/-- `if (choice.message.annotations === null || choice.message.annotations === undefined)
choice.message.annotations = [];` -/
def coerceAnnots (m : JSON) : Except FmtError JSON :=
  match m.get "annotations" with
  | some .null => jsAssign m "annotations" (.arr [])
  | none => jsAssign m "annotations" (.arr [])
  | some _ => .ok m

/-- The three field coercions the loop body applies to a truthy
`choice.message`, in source order. -/
def coerceMessage (m : JSON) : Except FmtError JSON :=
  match coerceToolCalls m with
  | .error e => .error e
  | .ok m1 =>
    match coerceFunctionCall m1 with
    | .error e => .error e
    | .ok m2 => coerceAnnots m2

/-- One iteration of the `for` loop over `clonedData.choices`: read
`choice.message` (a `TypeError` when the choice is `null`); when truthy,
coerce its fields (the in-place mutations become a functional update of the
`message` field of the choice, which is an object because the property read
succeeded); otherwise throw `MissingMessageError` in strict mode or leave
the choice unchanged. -/
def processChoice (choice : JSON) (strictMode : Bool) (itemIndex choiceIndex : Nat) :
    Except FmtError JSON :=
  match choice with
  | .null => .error (.typeError "cannot read message of null")
  | c =>
    match c.get "message" with
    | some m =>
      if m.truthy then
        match coerceMessage m with
        | .ok m' => .ok (c.set "message" m')
        | .error e => .error e
      else if strictMode then
        .error (.missingMessage choiceIndex itemIndex)
      else
        .ok c
    | none =>
      if strictMode then
        .error (.missingMessage choiceIndex itemIndex)
      else
        .ok c

/-- The whole `for` loop, iterating the choices in order from index `i`. -/
def processChoices (cs : List JSON) (strictMode : Bool) (itemIndex i : Nat) :
    Except FmtError (List JSON) :=
  match cs with
  | [] => .ok []
  | c :: rest =>
    match processChoice c strictMode itemIndex i with
    | .error e => .error e
    | .ok c' =>
      match processChoices rest strictMode itemIndex (i + 1) with
      | .error e => .error e
      | .ok rest' => .ok (c' :: rest')

/-- `formatLiteLLMResponse(data, strictMode, itemIndex, node)`: deep-clone,
then if `clonedData.choices` is a (necessarily truthy) array run the loop
and return the mutated clone; otherwise throw `InvalidStructureError` in
strict mode or return the clone unchanged. Reading `.choices` off a `null`
clone throws a `TypeError`. -/
def formatLiteLLMResponse (data : JSON) (strictMode : Bool) (itemIndex : Nat) :
    Except FmtError JSON :=
  let clonedData := deepClone data
  match clonedData with
  | .null => .error (.typeError "cannot read choices of null")
  | cd =>
    match cd.get "choices" with
    | some (.arr cs) =>
      match processChoices cs strictMode itemIndex 0 with
      | .error e => .error e
      | .ok cs' => .ok (cd.set "choices" (.arr cs'))
    | _ =>
      if strictMode then .error (.invalidStructure itemIndex) else .ok cd

/-! ### `JSON.parse`

`execute` parses the input field with `JSON.parse` when it is a string. The
parser below models it: whitespace, `null`, booleans, integer numbers,
strings (with the common escapes), arrays and objects. Fractional/exponent
number forms and `\u` escapes are not modelled (no claim involves them), and
an object literal keeps repeated keys in order where `JSON.parse` would keep
the last (no claim involves a repeated key). Recursion is fuelled; the
top-level entry supplies ample fuel for any input it is given. -/

/-- Skip JSON whitespace. -/
def skipWs : List Char → List Char
  | [] => []
  | c :: cs =>
    if c = ' ' ∨ c = '\n' ∨ c = '\t' ∨ c = '\r' then skipWs cs else c :: cs

/-- Body of a string literal after the opening quote, accumulating parsed
characters; returns the string and the input after the closing quote. -/
def parseStringAux : List Char → String → Option (String × List Char)
  | [], _ => none
  | '\\' :: c :: rest, acc =>
    if c = '"' ∨ c = '\\' ∨ c = '/' then parseStringAux rest (acc.push c)
    else if c = 'n' then parseStringAux rest (acc.push '\n')
    else if c = 't' then parseStringAux rest (acc.push '\t')
    else if c = 'r' then parseStringAux rest (acc.push '\r')
    else none
  | '"' :: rest, acc => some (acc, rest)
  | c :: rest, acc => parseStringAux rest (acc.push c)

/-- Split a leading run of decimal digits from the input. -/
def takeDigits : List Char → List Char × List Char
  | [] => ([], [])
  | c :: cs =>
    if c.isDigit then
      let (ds, r) := takeDigits cs
      (c :: ds, r)
    else ([], c :: cs)

/-- Value of a run of decimal digits. -/
def digitsToNat (ds : List Char) : Nat :=
  ds.foldl (fun a c => a * 10 + (c.toNat - 48)) 0

/-- An integer JSON number (optional minus sign, then digits). -/
def parseNumber (cs : List Char) : Option (JSON × List Char) :=
  match cs with
  | '-' :: rest =>
    match takeDigits rest with
    | ([], _) => none
    | (ds, r) => some (.num (-(digitsToNat ds : Int)), r)
  | _ =>
    match takeDigits cs with
    | ([], _) => none
    | (ds, r) => some (.num (digitsToNat ds), r)

mutual

/-- One JSON value, by first character after whitespace. -/
def parseValue : Nat → List Char → Option (JSON × List Char)
  | 0, _ => none
  | fuel + 1, cs =>
    match skipWs cs with
    | 'n' :: 'u' :: 'l' :: 'l' :: rest => some (.null, rest)
    | 't' :: 'r' :: 'u' :: 'e' :: rest => some (.bool true, rest)
    | 'f' :: 'a' :: 'l' :: 's' :: 'e' :: rest => some (.bool false, rest)
    | '"' :: rest =>
      match parseStringAux rest "" with
      | some (s, r) => some (.str s, r)
      | none => none
    | '[' :: rest =>
      match parseArrayRest fuel rest with
      | some (vs, r) => some (.arr vs, r)
      | none => none
    | '\x7b' :: rest =>
      match parseObjectRest fuel rest with
      | some (fs, r) => some (.obj fs, r)
      | none => none
    | other => parseNumber other

/-- Array body after `[`: empty, or a value followed by more elements. -/
def parseArrayRest : Nat → List Char → Option (List JSON × List Char)
  | 0, _ => none
  | fuel + 1, cs =>
    match skipWs cs with
    | ']' :: rest => some ([], rest)
    | cs' =>
      match parseValue fuel cs' with
      | none => none
      | some (v, r) =>
        match parseArrayMore fuel r with
        | none => none
        | some (vs, r') => some (v :: vs, r')

/-- Further array elements: `, value` repeated, then `]`. -/
def parseArrayMore : Nat → List Char → Option (List JSON × List Char)
  | 0, _ => none
  | fuel + 1, cs =>
    match skipWs cs with
    | ',' :: rest =>
      match parseValue fuel rest with
      | none => none
      | some (v, r) =>
        match parseArrayMore fuel r with
        | none => none
        | some (vs, r') => some (v :: vs, r')
    | ']' :: rest => some ([], rest)
    | _ => none

/-- One `"key": value` object member. -/
def parseMember : Nat → List Char → Option ((String × JSON) × List Char)
  | 0, _ => none
  | fuel + 1, cs =>
    match skipWs cs with
    | '"' :: rest =>
      match parseStringAux rest "" with
      | none => none
      | some (k, r) =>
        match skipWs r with
        | ':' :: r2 =>
          match parseValue fuel r2 with
          | none => none
          | some (v, r3) => some ((k, v), r3)
        | _ => none
    | _ => none

/-- Object body after the opening brace: empty, or a member followed by
more members. -/
def parseObjectRest : Nat → List Char → Option (List (String × JSON) × List Char)
  | 0, _ => none
  | fuel + 1, cs =>
    match skipWs cs with
    | '\x7d' :: rest => some ([], rest)
    | cs' =>
      match parseMember fuel cs' with
      | none => none
      | some (kv, r) =>
        match parseObjectMore fuel r with
        | none => none
        | some (kvs, r') => some (kv :: kvs, r')

/-- Further object members: `, member` repeated, then the closing brace. -/
def parseObjectMore : Nat → List Char → Option (List (String × JSON) × List Char)
  | 0, _ => none
  | fuel + 1, cs =>
    match skipWs cs with
    | ',' :: rest =>
      match parseMember fuel rest with
      | none => none
      | some (kv, r) =>
        match parseObjectMore fuel r with
        | none => none
        | some (kvs, r') => some (kv :: kvs, r')
    | '\x7d' :: rest => some ([], rest)
    | _ => none

end

/-- `JSON.parse(s)`: parse one value and require only whitespace after it;
`none` is the `SyntaxError` the source catches. -/
def parseJson (s : String) : Option JSON :=
  match parseValue (2 * s.length + 2) s.data with
  | some (v, rest) => if skipWs rest = [] then some v else none
  | none => none

/-! ### The `execute` layer -/

/-- One `INodeExecutionData` record: its `json` object (an ordered field
list, as in the document model), and the optional `binary` and `pairedItem`
payloads the source copies across (their shapes do not matter beyond
JavaScript truthiness, so they are arbitrary JSON values when present;
`none` is an absent property). -/
structure NodeItem where
  json : List (String × JSON)
  binary : Option JSON := none
  pairedItem : Option JSON := none

/-- The node's resolved parameters: `inputField`, `outputField`,
`options.processAllItems` (default `true`), `options.strictMode`
(default `false`). -/
structure ExecOptions where
  inputField : String
  outputField : String
  processAllItems : Bool
  strictMode : Bool

/-- JavaScript truthiness of a possibly-absent value. -/
def truthyOpt : Option JSON → Bool
  | none => false
  | some j => j.truthy

/-- `if (typeof inputData === 'string') inputData = JSON.parse(inputData);`
— `none` is the caught parse failure. -/
def stringCoerce : JSON → Option JSON
  | .str s => parseJson s
  | j => some j

/-- Construction of the output record: `{json: {...item.json,
[outputField]: formattedData}}`, then `binary` and `pairedItem` copied
when truthy. -/
def mkNewItem (item : NodeItem) (outputField : String) (formatted : JSON) : NodeItem :=
  { json := setField item.json outputField formatted
    binary := if truthyOpt item.binary then item.binary else none
    pairedItem := if truthyOpt item.pairedItem then item.pairedItem else none }

/-- The body of the `for` loop of `execute` for one entry of
`itemsToProcess`. `none` stands for the JavaScript `undefined` that
`[items[0]]` holds when the input was empty: reading `.json` off it throws
a `TypeError`, which the outer catch wraps with the item index. Otherwise:
read the input field (falsy → strict `MissingFieldError` / pass the item
through), coerce a string through `JSON.parse` (failure → strict
`ParseError` / pass through), format, and build the output record; a
`TypeError` escaping `formatLiteLLMResponse` is wrapped by the outer catch,
`NodeOperationError`s are rethrown as they are. -/
def processOne (itemOpt : Option NodeItem) (opts : ExecOptions) (itemIndex : Nat) :
    Except FmtError NodeItem :=
  match itemOpt with
  | none => .error (.wrapped itemIndex "cannot read json of undefined")
  | some item =>
    match lookupField item.json opts.inputField with
    | none =>
      if opts.strictMode then .error (.missingField opts.inputField itemIndex)
      else .ok item
    | some v =>
      if v.truthy then
        match stringCoerce v with
        | none =>
          if opts.strictMode then .error (.parseError opts.inputField itemIndex)
          else .ok item
        | some parsed =>
          match formatLiteLLMResponse parsed opts.strictMode itemIndex with
          | .ok formatted => .ok (mkNewItem item opts.outputField formatted)
          | .error (.typeError msg) => .error (.wrapped itemIndex msg)
          | .error e => .error e
      else
        if opts.strictMode then .error (.missingField opts.inputField itemIndex)
        else .ok item

/-- The `for` loop of `execute` over `itemsToProcess`, pushing one output
record per entry and aborting on the first error. -/
def execLoop (its : List (Option NodeItem)) (opts : ExecOptions) (itemIndex : Nat) :
    Except FmtError (List NodeItem) :=
  match its with
  | [] => .ok []
  | it :: rest =>
    match processOne it opts itemIndex with
    | .error e => .error e
    | .ok out =>
      match execLoop rest opts (itemIndex + 1) with
      | .error e => .error e
      | .ok outs => .ok (out :: outs)

/-- `execute`: `itemsToProcess = processAllItems ? items : [items[0]]`
(on an empty input, `items[0]` is `undefined` — `none`), the loop, then
when not processing all items and more than one item came in, the items
from index 1 on are appended unchanged. -/
def execute (items : List NodeItem) (opts : ExecOptions) :
    Except FmtError (List NodeItem) :=
  let itemsToProcess : List (Option NodeItem) :=
    if opts.processAllItems then items.map some else [items.head?]
  match execLoop itemsToProcess opts 0 with
  | .error e => .error e
  | .ok returnData =>
    .ok (returnData ++ (if !opts.processAllItems && items.length > 1 then items.drop 1 else []))

/-! ## Basic lemmas about the embedded operations -/

mutual

/-- The serialize/reparse deep clone reproduces a JSON-compatible value. -/
theorem deepClone_id : ∀ j : JSON, deepClone j = j
  | .null => rfl
  | .bool _ => rfl
  | .num _ => rfl
  | .str _ => rfl
  | .arr xs => by rw [deepClone]; exact congrArg JSON.arr (deepCloneList_id xs)
  | .obj fs => by rw [deepClone]; exact congrArg JSON.obj (deepCloneFields_id fs)

/-- Elementwise version of `deepClone_id` for arrays. -/
theorem deepCloneList_id : ∀ xs : List JSON, deepCloneList xs = xs
  | [] => rfl
  | x :: xs => by rw [deepCloneList, deepClone_id x, deepCloneList_id xs]

/-- Fieldwise version of `deepClone_id` for objects. -/
theorem deepCloneFields_id : ∀ fs : List (String × JSON), deepCloneFields fs = fs
  | [] => rfl
  | (k, v) :: fs => by rw [deepCloneFields, deepClone_id v, deepCloneFields_id fs]

end

/-- Reading a key just assigned finds the assigned value. -/
theorem lookupField_setField_self (fs : List (String × JSON)) (k : String) (v : JSON) :
    lookupField (setField fs k v) k = some v := by
  induction fs with
  | nil => simp [setField, lookupField]
  | cons kv rest ih =>
    obtain ⟨k', v'⟩ := kv
    by_cases h : k' = k
    · simp [setField, h, lookupField]
    · simp [setField, h, lookupField, ih]

/-- Assignment to one key leaves every other key's value alone. -/
theorem lookupField_setField_ne (fs : List (String × JSON)) (k k' : String) (v : JSON)
    (h : k' ≠ k) : lookupField (setField fs k v) k' = lookupField fs k' := by
  induction fs with
  | nil => simp [setField, lookupField, Ne.symm h]
  | cons kv rest ih =>
    obtain ⟨k'', v''⟩ := kv
    by_cases h1 : k'' = k
    · simp [setField, lookupField, h1, Ne.symm h]
    · by_cases h2 : k'' = k'
      · simp [setField, lookupField, h1, h2, h, ih]
      · simp [setField, lookupField, h1, h2, ih]

/-- Assigning the same key twice keeps only the second assignment. -/
theorem setField_setField_self (fs : List (String × JSON)) (k : String) (v w : JSON) :
    setField (setField fs k v) k w = setField fs k w := by
  induction fs with
  | nil => simp [setField]
  | cons kv rest ih =>
    obtain ⟨k', v'⟩ := kv
    by_cases h : k' = k
    · simp [setField, h]
    · simp [setField, h, ih]

/-! ## Characterization of the field coercions -/

/-- Statement helper for the `tool_calls` / `function_call` rule: a key
present with value exactly `null` becomes the given empty collection; any
other present value, and an absent key, are untouched. -/
def nullToEmpty (v : Option JSON) (e : JSON) : Option JSON :=
  match v with
  | some .null => some e
  | x => x

/-- Statement helper for the `annotations` rule: an absent key and an
explicit `null` both become the empty array; any other value is
untouched. -/
def annotResult (v : Option JSON) : Option JSON :=
  match v with
  | some .null => some (.arr [])
  | none => some (.arr [])
  | some w => some w

/-- On an object message, the `tool_calls` coercion succeeds, rewrites
`tool_calls` by the null-to-empty-array rule and touches no other key. -/
theorem coerceToolCalls_obj (fs : List (String × JSON)) :
    ∃ gs, coerceToolCalls (.obj fs) = .ok (.obj gs) ∧
      lookupField gs "tool_calls" = nullToEmpty (lookupField fs "tool_calls") (.arr []) ∧
      ∀ k, k ≠ "tool_calls" → lookupField gs k = lookupField fs k := by
  cases hv : lookupField fs "tool_calls" with
  | none =>
    exact ⟨fs, by simp [coerceToolCalls, JSON.get, hv], by simp [hv, nullToEmpty],
      fun k hk => rfl⟩
  | some v =>
    cases v
    case null =>
      exact ⟨setField fs "tool_calls" (.arr []),
        by simp [coerceToolCalls, JSON.get, hv, jsAssign],
        by simp [hv, nullToEmpty, lookupField_setField_self],
        fun k hk => lookupField_setField_ne fs "tool_calls" k _ hk⟩
    all_goals exact ⟨fs, by simp [coerceToolCalls, JSON.get, hv],
      by simp [hv, nullToEmpty], fun k hk => rfl⟩

/-- On an object message, the `function_call` coercion succeeds, rewrites
`function_call` by the null-to-empty-object rule and touches no other
key. -/
theorem coerceFunctionCall_obj (fs : List (String × JSON)) :
    ∃ gs, coerceFunctionCall (.obj fs) = .ok (.obj gs) ∧
      lookupField gs "function_call" = nullToEmpty (lookupField fs "function_call") (.obj []) ∧
      ∀ k, k ≠ "function_call" → lookupField gs k = lookupField fs k := by
  cases hv : lookupField fs "function_call" with
  | none =>
    exact ⟨fs, by simp [coerceFunctionCall, JSON.get, hv], by simp [hv, nullToEmpty],
      fun k hk => rfl⟩
  | some v =>
    cases v
    case null =>
      exact ⟨setField fs "function_call" (.obj []),
        by simp [coerceFunctionCall, JSON.get, hv, jsAssign],
        by simp [hv, nullToEmpty, lookupField_setField_self],
        fun k hk => lookupField_setField_ne fs "function_call" k _ hk⟩
    all_goals exact ⟨fs, by simp [coerceFunctionCall, JSON.get, hv],
      by simp [hv, nullToEmpty], fun k hk => rfl⟩

/-- On an object message, the `annotations` coercion succeeds, rewrites
`annotations` by the absent-or-null rule and touches no other key. -/
theorem coerceAnnots_obj (fs : List (String × JSON)) :
    ∃ gs, coerceAnnots (.obj fs) = .ok (.obj gs) ∧
      lookupField gs "annotations" = annotResult (lookupField fs "annotations") ∧
      ∀ k, k ≠ "annotations" → lookupField gs k = lookupField fs k := by
  cases hv : lookupField fs "annotations" with
  | none =>
    exact ⟨setField fs "annotations" (.arr []),
      by simp [coerceAnnots, JSON.get, hv, jsAssign],
      by simp [hv, annotResult, lookupField_setField_self],
      fun k hk => lookupField_setField_ne fs "annotations" k _ hk⟩
  | some v =>
    cases v
    case null =>
      exact ⟨setField fs "annotations" (.arr []),
        by simp [coerceAnnots, JSON.get, hv, jsAssign],
        by simp [hv, annotResult, lookupField_setField_self],
        fun k hk => lookupField_setField_ne fs "annotations" k _ hk⟩
    all_goals exact ⟨fs, by simp [coerceAnnots, JSON.get, hv],
      by simp [hv, annotResult], fun k hk => rfl⟩

/-- On an object message the whole coercion chain succeeds and each of
the three keys obeys its rule. -/
theorem coerceMessage_obj (fs : List (String × JSON)) :
    ∃ gs, coerceMessage (.obj fs) = .ok (.obj gs) ∧
      lookupField gs "tool_calls" = nullToEmpty (lookupField fs "tool_calls") (.arr []) ∧
      lookupField gs "function_call" = nullToEmpty (lookupField fs "function_call") (.obj []) ∧
      lookupField gs "annotations" = annotResult (lookupField fs "annotations") := by
  obtain ⟨g1, e1, t1, p1⟩ := coerceToolCalls_obj fs
  obtain ⟨g2, e2, f2, p2⟩ := coerceFunctionCall_obj g1
  obtain ⟨g3, e3, a3, p3⟩ := coerceAnnots_obj g2
  refine ⟨g3, ?_, ?_, ?_, ?_⟩
  · simp [coerceMessage, e1, e2, e3]
  · rw [p3 _ (by decide), p2 _ (by decide), t1]
  · rw [p3 _ (by decide), f2, p1 _ (by decide)]
  · rw [a3, p2 _ (by decide), p1 _ (by decide)]

/-- A choice that is an object with an object message is processed without
error, in either mode, into the same choice with its message's three keys
coerced. -/
theorem processChoice_obj_message (cfs mfs : List (String × JSON)) (s : Bool) (idx i : Nat)
    (hm : lookupField cfs "message" = some (.obj mfs)) :
    ∃ gs, processChoice (.obj cfs) s idx i = .ok (.obj (setField cfs "message" (.obj gs))) ∧
      lookupField gs "tool_calls" = nullToEmpty (lookupField mfs "tool_calls") (.arr []) ∧
      lookupField gs "function_call" = nullToEmpty (lookupField mfs "function_call") (.obj []) ∧
      lookupField gs "annotations" = annotResult (lookupField mfs "annotations") := by
  obtain ⟨gs, hc, ht, hf, ha⟩ := coerceMessage_obj mfs
  refine ⟨gs, ?_, ht, hf, ha⟩
  simp [processChoice, JSON.get, hm, JSON.truthy, hc, JSON.set]

/-! ## The loop, pointwise -/

/-- A successful run of the choices loop is a successful iteration on every
element, position by position. -/
theorem processChoices_ok_pointwise {cs cs' : List JSON} {s : Bool} {idx i0 : Nat}
    (h : processChoices cs s idx i0 = .ok cs') :
    cs'.length = cs.length ∧
      ∀ k ck, cs[k]? = some ck →
        ∃ ck', cs'[k]? = some ck' ∧ processChoice ck s idx (i0 + k) = .ok ck' := by
  induction cs generalizing cs' i0 with
  | nil =>
    simp [processChoices] at h
    subst h
    exact ⟨rfl, fun k ck hk => by simp at hk⟩
  | cons c rest ih =>
    simp only [processChoices] at h
    cases hc : processChoice c s idx i0 with
    | error e => rw [hc] at h; simp at h
    | ok c1 =>
      rw [hc] at h
      cases hrest : processChoices rest s idx (i0 + 1) with
      | error e => rw [hrest] at h; simp at h
      | ok rest1 =>
        rw [hrest] at h
        simp at h
        subst h
        obtain ⟨hlen, hpt⟩ := ih hrest
        refine ⟨by simp [hlen], ?_⟩
        intro k ck hk
        cases k with
        | zero =>
          simp at hk
          subst hk
          exact ⟨c1, by simp, by simpa using hc⟩
        | succ k =>
          simp at hk ⊢
          obtain ⟨ck', h1, h2⟩ := hpt k ck hk
          refine ⟨ck', h1, ?_⟩
          have harith : i0 + (k + 1) = i0 + 1 + k := by omega
          rw [harith]
          exact h2

/-- On an object document with a `choices` array, `formatLiteLLMResponse`
is the loop followed by writing the processed array back over `choices`. -/
theorem format_obj_choices (dfs : List (String × JSON)) (cs : List JSON) (s : Bool) (idx : Nat)
    (hc : lookupField dfs "choices" = some (.arr cs)) :
    formatLiteLLMResponse (.obj dfs) s idx =
      match processChoices cs s idx 0 with
      | .error e => .error e
      | .ok cs' => .ok (.obj (setField dfs "choices" (.arr cs'))) := by
  have h1 : (JSON.obj dfs).get "choices" = some (.arr cs) := hc
  simp only [formatLiteLLMResponse, deepClone_id, h1, JSON.set]

/-- A successful `formatLiteLLMResponse` on a document with a `choices`
array rewrites exactly that array, processing each element in place. -/
theorem format_ok_pointwise {doc : JSON} {s : Bool} {idx : Nat} {r : JSON} {cs : List JSON}
    (hr : formatLiteLLMResponse doc s idx = .ok r)
    (hc : doc.get "choices" = some (.arr cs)) :
    ∃ cs', r.get "choices" = some (.arr cs') ∧ cs'.length = cs.length ∧
      ∀ k ck, cs[k]? = some ck →
        ∃ ck', cs'[k]? = some ck' ∧ processChoice ck s idx k = .ok ck' := by
  cases doc with
  | obj dfs =>
    rw [format_obj_choices dfs cs s idx hc] at hr
    cases hp : processChoices cs s idx 0 with
    | error e => rw [hp] at hr; simp at hr
    | ok cs' =>
      rw [hp] at hr
      simp at hr
      obtain ⟨hlen, hpt⟩ := processChoices_ok_pointwise hp
      refine ⟨cs', ?_, hlen, ?_⟩
      · rw [← hr]
        simp [JSON.get, lookupField_setField_self]
      · intro k ck hk
        simpa using hpt k ck hk
  | null => simp [JSON.get] at hc
  | bool b => simp [JSON.get] at hc
  | num n => simp [JSON.get] at hc
  | str s' => simp [JSON.get] at hc
  | arr xs => simp [JSON.get] at hc

/-- Shared success-case analysis for the two field-coercion claims: a
choice of the input that is an object with an object message reappears at
the same index of the result's `choices` with its message coerced keywise. -/
theorem format_message_obj {doc : JSON} {s : Bool} {idx : Nat} {r : JSON} {cs : List JSON}
    {k : Nat} {cfs mfs : List (String × JSON)}
    (hr : formatLiteLLMResponse doc s idx = .ok r)
    (hc : doc.get "choices" = some (.arr cs))
    (hk : cs[k]? = some (.obj cfs))
    (hm : lookupField cfs "message" = some (.obj mfs)) :
    ∃ cs' gs, r.get "choices" = some (.arr cs') ∧
      cs'[k]? = some (.obj (setField cfs "message" (.obj gs))) ∧
      lookupField gs "tool_calls" = nullToEmpty (lookupField mfs "tool_calls") (.arr []) ∧
      lookupField gs "function_call" = nullToEmpty (lookupField mfs "function_call") (.obj []) ∧
      lookupField gs "annotations" = annotResult (lookupField mfs "annotations") := by
  obtain ⟨cs', hcs', hlen, hpt⟩ := format_ok_pointwise hr hc
  obtain ⟨ck', hck', hproc⟩ := hpt k _ hk
  obtain ⟨gs, hpc, ht, hf, ha⟩ := processChoice_obj_message cfs mfs s idx k hm
  rw [hproc] at hpc
  have hck : ck' = .obj (setField cfs "message" (.obj gs)) := by simpa using hpc
  refine ⟨cs', gs, hcs', ?_, ht, hf, ha⟩
  rw [hck', hck]

/-! ## Claim theorems -/

/-- **C2**: for every document, strict flag and message mapping reached by
the normalizer (a choice object at index `k` of the `choices` array whose
`message` is an object), the result's message has `tool_calls` and
`function_call` rewritten by the null-to-empty rule: replaced exactly when
the key is present with value `null` (`nullToEmpty` keeps an absent key
absent and any non-null value unchanged). -/
theorem c2_null_only_replacement (doc : JSON) (s : Bool) (idx : Nat) (r : JSON)
    (cs : List JSON) (k : Nat) (cfs mfs : List (String × JSON))
    (hr : formatLiteLLMResponse doc s idx = .ok r)
    (hc : doc.get "choices" = some (.arr cs))
    (hk : cs[k]? = some (.obj cfs))
    (hm : lookupField cfs "message" = some (.obj mfs)) :
    ∃ cs' gs, r.get "choices" = some (.arr cs') ∧
      cs'[k]? = some (.obj (setField cfs "message" (.obj gs))) ∧
      lookupField gs "tool_calls" = nullToEmpty (lookupField mfs "tool_calls") (.arr []) ∧
      lookupField gs "function_call" = nullToEmpty (lookupField mfs "function_call") (.obj []) := by
  obtain ⟨cs', gs, h1, h2, h3, h4, _⟩ := format_message_obj hr hc hk hm
  exact ⟨cs', gs, h1, h2, h3, h4⟩

def c2wMfs : List (String × JSON) := [("tool_calls", JSON.null)]

def c2wCfs : List (String × JSON) := [("message", .obj c2wMfs)]

def c2wDoc : JSON := .obj [("choices", .arr [.obj c2wCfs])]

def c2wRes : JSON :=
  .obj [("choices", .arr [.obj [("message",
    .obj [("tool_calls", .arr []), ("annotations", .arr [])])]])]

/-- Witness for C2: a concrete run with `tool_calls: null` replaced and
`function_call` absent in and absent out. -/
theorem c2_witness :
    formatLiteLLMResponse c2wDoc false 0 = .ok c2wRes ∧
    ∃ cs' gs, c2wRes.get "choices" = some (.arr cs') ∧
      cs'[0]? = some (.obj (setField c2wCfs "message" (.obj gs))) ∧
      lookupField gs "tool_calls" = nullToEmpty (lookupField c2wMfs "tool_calls") (.arr []) ∧
      lookupField gs "function_call" = nullToEmpty (lookupField c2wMfs "function_call") (.obj []) :=
  ⟨rfl, c2_null_only_replacement c2wDoc false 0 c2wRes [.obj c2wCfs] 0 c2wCfs c2wMfs
    rfl rfl rfl rfl⟩

/-- **C3**: for every document, strict flag and message mapping reached by
the normalizer, when the input message's `annotations` key is absent or
explicitly `null`, the result's message has `annotations` equal to the
empty array (the key is introduced when it was absent). -/
theorem c3_annots_defaulted (doc : JSON) (s : Bool) (idx : Nat) (r : JSON)
    (cs : List JSON) (k : Nat) (cfs mfs : List (String × JSON))
    (hr : formatLiteLLMResponse doc s idx = .ok r)
    (hc : doc.get "choices" = some (.arr cs))
    (hk : cs[k]? = some (.obj cfs))
    (hm : lookupField cfs "message" = some (.obj mfs))
    (ha : lookupField mfs "annotations" = none ∨ lookupField mfs "annotations" = some .null) :
    ∃ cs' gs, r.get "choices" = some (.arr cs') ∧
      cs'[k]? = some (.obj (setField cfs "message" (.obj gs))) ∧
      lookupField gs "annotations" = some (.arr []) := by
  obtain ⟨cs', gs, h1, h2, _, _, h5⟩ := format_message_obj hr hc hk hm
  refine ⟨cs', gs, h1, h2, ?_⟩
  rcases ha with ha | ha <;> rw [h5, ha] <;> rfl

def c3wCfs : List (String × JSON) := [("message", .obj [])]

def c3wDoc : JSON := .obj [("choices", .arr [.obj c3wCfs])]

def c3wRes : JSON :=
  .obj [("choices", .arr [.obj [("message", .obj [("annotations", .arr [])])]])]

/-- Witness for C3: the message `{}` (key absent) gains `annotations: []`. -/
theorem c3_witness :
    formatLiteLLMResponse c3wDoc false 0 = .ok c3wRes ∧
    ∃ cs' gs, c3wRes.get "choices" = some (.arr cs') ∧
      cs'[0]? = some (.obj (setField c3wCfs "message" (.obj gs))) ∧
      lookupField gs "annotations" = some (.arr []) :=
  ⟨rfl, c3_annots_defaulted c3wDoc false 0 c3wRes [.obj c3wCfs] 0 c3wCfs []
    rfl rfl rfl rfl (Or.inl rfl)⟩

/-- A document that is not `null` and has no `choices` array: strict mode
fails with `InvalidStructureError`, non-strict mode returns it unchanged. -/
theorem format_no_choices (doc : JSON) (idx : Nat)
    (hnn : doc ≠ .null)
    (hc : ∀ xs : List JSON, doc.get "choices" ≠ some (.arr xs)) :
    formatLiteLLMResponse doc true idx = .error (.invalidStructure idx) ∧
    formatLiteLLMResponse doc false idx = .ok doc := by
  cases doc with
  | null => exact absurd rfl hnn
  | obj dfs =>
    cases hv : lookupField dfs "choices" with
    | none => constructor <;> simp [formatLiteLLMResponse, deepClone_id, JSON.get, hv]
    | some v =>
      cases v
      case arr xs => exact absurd hv (hc xs)
      all_goals constructor <;> simp [formatLiteLLMResponse, deepClone_id, JSON.get, hv]
  | bool b => constructor <;> simp [formatLiteLLMResponse, deepClone_id, JSON.get]
  | num n => constructor <;> simp [formatLiteLLMResponse, deepClone_id, JSON.get]
  | str s => constructor <;> simp [formatLiteLLMResponse, deepClone_id, JSON.get]
  | arr xs => constructor <;> simp [formatLiteLLMResponse, deepClone_id, JSON.get]

/-- **C4**: for every document (a mapping per the data model — in
particular not the JSON `null`, whose property read would throw in
JavaScript; the theorem covers every non-null value) whose `choices` key is
absent or not an array: strict mode fails with `InvalidStructureError` and
non-strict mode returns the (clone of the) document unchanged, with no
coercion and no error. The witness instantiates the `normalize({}, ...)`
cases of the claim. -/
theorem c4_invalid_structure (doc : JSON) (idx : Nat)
    (hnn : doc ≠ .null)
    (hc : ∀ xs : List JSON, doc.get "choices" ≠ some (.arr xs)) :
    formatLiteLLMResponse doc true idx = .error (.invalidStructure idx) ∧
    formatLiteLLMResponse doc false idx = .ok doc :=
  format_no_choices doc idx hnn hc

/-- Witness for C4: `normalize({}, strict) `. -/
theorem c4_witness :
    formatLiteLLMResponse (.obj []) true 0 = .error (.invalidStructure 0) ∧
    formatLiteLLMResponse (.obj []) false 0 = .ok (.obj []) :=
  c4_invalid_structure (.obj []) 0 (by intro h; cases h)
    (by intro xs h; simp [JSON.get, lookupField] at h)

/-- **C6**: non-mutation. In this embedding values are immutable, so the
statement with verifiable content is the copy discipline the source relies
on: the serialize/reparse clone it mutates reproduces the input document
exactly (`deepClone doc = doc`), and the call computes from that clone
alone, so after `normalize(doc, strict)` — whether it succeeds or fails —
the caller's document equals its pre-call state, and mutating the returned
copy cannot reach the input. -/
theorem c6_no_mutation (doc : JSON) (s : Bool) (idx : Nat) :
    deepClone doc = doc ∧
    formatLiteLLMResponse doc s idx = formatLiteLLMResponse (deepClone doc) s idx :=
  ⟨deepClone_id doc, by rw [deepClone_id]⟩

/-- **C10**: on an empty input sequence, `processAllItems = false` makes
the batch layer select `items[0]` — `undefined` — so the operation fails
with the wrapped (`Error processing item 0`) error rather than returning an
empty output; with `processAllItems = true` the loop body never runs and
the result is the empty output, with no error. -/
theorem c10_empty_items (inF outF : String) (s : Bool) :
    execute [] { inputField := inF, outputField := outF,
                 processAllItems := false, strictMode := s }
      = .error (.wrapped 0 "cannot read json of undefined") ∧
    execute [] { inputField := inF, outputField := outF,
                 processAllItems := true, strictMode := s }
      = .ok [] :=
  ⟨rfl, rfl⟩

/-! ## C1: the end-to-end scenario -/

def c1String : String :=
  "\x7b\"choices\":[\x7b\"message\":\x7b\"tool_calls\":null,\"annotations\":null\x7d\x7d]\x7d"

def c1Item : NodeItem := { json := [("data", .str c1String)] }

def c1Opts : ExecOptions :=
  { inputField := "data", outputField := "data", processAllItems := true, strictMode := false }

def c1OutMsg : List (String × JSON) := [("tool_calls", .arr []), ("annotations", .arr [])]

def c1OutDoc : JSON := .obj [("choices", .arr [.obj [("message", .obj c1OutMsg)]])]

/-- **C1** (counterexample): the claimed end-to-end scenario asserts the
output record's message equals `{tool_calls: [], function_call: {},
annotations: []}` — with `function_call` present. The actual run returns
exactly one record whose message is `{tool_calls: [], annotations: []}`
and has no `function_call` key at all: the source replaces `function_call`
only when the key is present with value `null`, and the input string does
not contain it. -/
theorem c1_counterexample :
    execute [c1Item] c1Opts = .ok [{ json := [("data", c1OutDoc)] }] ∧
    lookupField c1OutMsg "function_call" = none :=
  ⟨rfl, rfl⟩

/-- **C1** (amended): the same scenario with the correct output — exactly
one record whose `data` field is the parsed document with message
`{tool_calls: [], annotations: []}`; `function_call`, absent in the input,
is not introduced. -/
theorem c1_end_to_end :
    execute [c1Item] c1Opts = .ok [{ json := [("data", c1OutDoc)] }] :=
  rfl

/-! ## C5: missing-message handling -/

/-- A non-null choice whose `message` is absent or falsy: strict mode
raises `MissingMessageError` with this choice's index, non-strict mode
returns the choice unchanged. -/
theorem processChoice_no_message (c : JSON) (idx i : Nat)
    (hnn : c ≠ .null)
    (hm : ∀ m, c.get "message" = some m → m.truthy = false) :
    processChoice c true idx i = .error (.missingMessage i idx) ∧
    processChoice c false idx i = .ok c := by
  cases c with
  | null => exact absurd rfl hnn
  | obj cfs =>
    cases hv : lookupField cfs "message" with
    | none => constructor <;> simp [processChoice, JSON.get, hv]
    | some m =>
      have hf : m.truthy = false := hm m hv
      constructor <;> simp [processChoice, JSON.get, hv, hf]
  | bool b => constructor <;> simp [processChoice, JSON.get]
  | num n => constructor <;> simp [processChoice, JSON.get]
  | str s => constructor <;> simp [processChoice, JSON.get]
  | arr xs => constructor <;> simp [processChoice, JSON.get]

/-- If every choice before index `i` processes successfully and the choice
at `i` fails, the loop fails with exactly that error. -/
theorem processChoices_error_at {cs : List JSON} {s : Bool} {idx i0 i : Nat} {ci : JSON}
    {e : FmtError}
    (hk : cs[i]? = some ci)
    (hok : ∀ j cj, j < i → cs[j]? = some cj →
      ∃ cj', processChoice cj s idx (i0 + j) = .ok cj')
    (herr : processChoice ci s idx (i0 + i) = .error e) :
    processChoices cs s idx i0 = .error e := by
  induction cs generalizing i0 i with
  | nil => simp at hk
  | cons c rest ih =>
    cases i with
    | zero =>
      simp at hk
      subst hk
      have herr' : processChoice c s idx i0 = .error e := by simpa using herr
      simp only [processChoices]
      rw [herr']
    | succ i =>
      simp at hk
      obtain ⟨c0', hc0⟩ := hok 0 c (by omega) (by simp)
      have hc0' : processChoice c s idx i0 = .ok c0' := by simpa using hc0
      simp only [processChoices]
      rw [hc0']
      have hrec : processChoices rest s idx (i0 + 1) = .error e := by
        apply ih hk
        · intro j cj hj hcj
          have hjj := hok (j + 1) cj (by omega) (by simpa using hcj)
          rwa [show i0 + (j + 1) = i0 + 1 + j by omega] at hjj
        · rwa [show i0 + 1 + i = i0 + (i + 1) by omega]
      rw [hrec]

def c5xDoc : JSON := .obj [("choices", .arr [.obj [("message", .num 0)], .obj []])]

/-- **C5** (counterexample): in `{choices: [{message: 0}, {}]}` the only
choice lacking a `message` field is the one at index 1 — the choice at
index 0 has the field, with value `0` — yet strict mode fails with
`MissingMessageError` carrying choice index 0, not the claimed least index
of a field-lacking choice: the source tests JavaScript truthiness of
`choice.message`, not key presence, so a present-but-falsy message also
trips the error, at an earlier index. -/
theorem c5_counterexample :
    formatLiteLLMResponse c5xDoc true 0 = .error (.missingMessage 0 0) ∧
    lookupField [("message", JSON.num 0)] "message" = some (.num 0) ∧
    lookupField ([] : List (String × JSON)) "message" = none :=
  ⟨rfl, rfl, rfl⟩

/-- **C5** (amended): the source treats a choice as missing its message
when `choice.message` is not truthy (key absent, or value `null`, `false`,
`0` or `""`). For a document whose `choices` is an array, if the choice at
index `i` is non-null with a non-truthy message, and every earlier choice
is an object whose message is an object (so it processes without error),
then strict mode fails with `MissingMessageError` carrying exactly index
`i`, while the non-strict iteration returns that choice unchanged and
continues. -/
theorem c5_missing_message (dfs : List (String × JSON)) (cs : List JSON)
    (idx i : Nat) (ci : JSON)
    (hc : lookupField dfs "choices" = some (.arr cs))
    (hk : cs[i]? = some ci)
    (hnn : ci ≠ .null)
    (hmsg : ∀ m, ci.get "message" = some m → m.truthy = false)
    (hpre : ∀ j cj, j < i → cs[j]? = some cj →
      ∃ gjs mjs, cj = .obj gjs ∧ lookupField gjs "message" = some (.obj mjs)) :
    formatLiteLLMResponse (.obj dfs) true idx = .error (.missingMessage i idx) ∧
    processChoice ci false idx i = .ok ci := by
  have hloc := processChoice_no_message ci idx i hnn hmsg
  refine ⟨?_, hloc.2⟩
  rw [format_obj_choices dfs cs true idx hc]
  have herr : processChoices cs true idx 0 = .error (.missingMessage i idx) := by
    apply processChoices_error_at hk
    · intro j cj hj hcj
      obtain ⟨gjs, mjs, rfl, hmj⟩ := hpre j cj hj hcj
      obtain ⟨gs, hpc, _, _, _⟩ := processChoice_obj_message gjs mjs true idx (0 + j) hmj
      exact ⟨_, hpc⟩
    · rw [show 0 + i = i by omega]
      exact hloc.1
  rw [herr]

/-- Witness for C5 (amended): choice 0 is `{message: {}}`, choice 1 is
`{}`; strict mode fails at choice index 1 and the non-strict iteration
passes choice 1 through. -/
theorem c5_witness :
    formatLiteLLMResponse
        (.obj [("choices", .arr [.obj [("message", .obj [])], .obj []])]) true 3
      = .error (.missingMessage 1 3) ∧
    processChoice (.obj []) false 3 1 = .ok (.obj []) :=
  c5_missing_message [("choices", .arr [.obj [("message", .obj [])], .obj []])]
    [.obj [("message", .obj [])], .obj []] 3 1 (.obj [])
    rfl rfl (by intro h; cases h)
    (by intro m h; simp [JSON.get, lookupField] at h)
    (by
      intro j cj hj hcj
      have hj0 : j = 0 := by omega
      subst hj0
      simp at hcj
      subst hcj
      exact ⟨[("message", .obj [])], [], rfl, rfl⟩)

/-! ## C7: idempotence -/

/-- When `tool_calls` is not a present `null`, the coercion is a no-op. -/
theorem coerceToolCalls_skip (gs : List (String × JSON))
    (h : lookupField gs "tool_calls" ≠ some .null) :
    coerceToolCalls (.obj gs) = .ok (.obj gs) := by
  cases hv : lookupField gs "tool_calls" with
  | none => simp [coerceToolCalls, JSON.get, hv]
  | some v =>
    cases v
    case null => exact absurd hv h
    all_goals simp [coerceToolCalls, JSON.get, hv]

/-- When `function_call` is not a present `null`, the coercion is a
no-op. -/
theorem coerceFunctionCall_skip (gs : List (String × JSON))
    (h : lookupField gs "function_call" ≠ some .null) :
    coerceFunctionCall (.obj gs) = .ok (.obj gs) := by
  cases hv : lookupField gs "function_call" with
  | none => simp [coerceFunctionCall, JSON.get, hv]
  | some v =>
    cases v
    case null => exact absurd hv h
    all_goals simp [coerceFunctionCall, JSON.get, hv]

/-- When `annotations` is present and non-null, the coercion is a no-op. -/
theorem coerceAnnots_skip (gs : List (String × JSON))
    (h1 : lookupField gs "annotations" ≠ none)
    (h2 : lookupField gs "annotations" ≠ some .null) :
    coerceAnnots (.obj gs) = .ok (.obj gs) := by
  cases hv : lookupField gs "annotations" with
  | none => exact absurd hv h1
  | some v =>
    cases v
    case null => exact absurd hv h2
    all_goals simp [coerceAnnots, JSON.get, hv]

/-- The null-to-empty rule never produces a present `null`. -/
theorem nullToEmpty_ne_null (v : Option JSON) (e : JSON) (he : e ≠ .null) :
    nullToEmpty v e ≠ some .null := by
  cases v with
  | none => simp [nullToEmpty]
  | some w =>
    cases w
    case null => simpa [nullToEmpty] using he
    all_goals simp [nullToEmpty]

/-- The annotations rule always leaves the key present. -/
theorem annotResult_ne_none (v : Option JSON) : annotResult v ≠ none := by
  cases v with
  | none => simp [annotResult]
  | some w => cases w <;> simp [annotResult]

/-- The annotations rule never leaves a present `null`. -/
theorem annotResult_ne_null (v : Option JSON) : annotResult v ≠ some .null := by
  cases v with
  | none => simp [annotResult]
  | some w => cases w <;> simp [annotResult]

/-- The message coercion is idempotent on object messages. -/
theorem coerceMessage_idem_obj (fs gs : List (String × JSON))
    (h : coerceMessage (.obj fs) = .ok (.obj gs)) :
    coerceMessage (.obj gs) = .ok (.obj gs) := by
  obtain ⟨gs', he, ht, hf, ha⟩ := coerceMessage_obj fs
  rw [h] at he
  have hgs : gs' = gs := by simpa using he.symm
  rw [hgs] at ht hf ha
  have h1 : lookupField gs "tool_calls" ≠ some .null := by
    rw [ht]; exact nullToEmpty_ne_null _ _ (by intro hh; cases hh)
  have h2 : lookupField gs "function_call" ≠ some .null := by
    rw [hf]; exact nullToEmpty_ne_null _ _ (by intro hh; cases hh)
  have h3 : lookupField gs "annotations" ≠ none := by
    rw [ha]; exact annotResult_ne_none _
  have h4 : lookupField gs "annotations" ≠ some .null := by
    rw [ha]; exact annotResult_ne_null _
  simp [coerceMessage, coerceToolCalls_skip gs h1, coerceFunctionCall_skip gs h2,
    coerceAnnots_skip gs h3 h4]

/-- One loop iteration is idempotent: re-processing a processed choice
returns it unchanged. -/
theorem processChoice_idem {c c' : JSON} {s : Bool} {idx i : Nat}
    (h : processChoice c s idx i = .ok c') :
    processChoice c' s idx i = .ok c' := by
  cases c with
  | null => simp [processChoice] at h
  | obj cfs =>
    cases hv : lookupField cfs "message" with
    | none =>
      cases s with
      | true => simp [processChoice, JSON.get, hv] at h
      | false =>
        simp [processChoice, JSON.get, hv] at h
        subst h
        simp [processChoice, JSON.get, hv]
    | some m =>
      cases hm : m.truthy with
      | false =>
        cases s with
        | true => simp [processChoice, JSON.get, hv, hm] at h
        | false =>
          simp [processChoice, JSON.get, hv, hm] at h
          subst h
          simp [processChoice, JSON.get, hv, hm]
      | true =>
        cases hcm : coerceMessage m with
        | error e => simp [processChoice, JSON.get, hv, hm, hcm] at h
        | ok m' =>
          simp [processChoice, JSON.get, hv, hm, hcm, JSON.set] at h
          subst h
          cases m with
          | null => simp [JSON.truthy] at hm
          | bool b =>
            simp [coerceMessage, coerceToolCalls, coerceFunctionCall, coerceAnnots,
              JSON.get, jsAssign] at hcm
          | num n =>
            simp [coerceMessage, coerceToolCalls, coerceFunctionCall, coerceAnnots,
              JSON.get, jsAssign] at hcm
          | str t =>
            simp [coerceMessage, coerceToolCalls, coerceFunctionCall, coerceAnnots,
              JSON.get, jsAssign] at hcm
          | arr xs =>
            have hx : m' = .arr xs := by
              simpa [coerceMessage, coerceToolCalls, coerceFunctionCall, coerceAnnots,
                JSON.get, jsAssign] using hcm.symm
            subst hx
            have hg : lookupField (setField cfs "message" (.arr xs)) "message"
                = some (.arr xs) := lookupField_setField_self cfs "message" (.arr xs)
            simp [processChoice, JSON.get, hg, JSON.truthy, hcm, JSON.set,
              setField_setField_self]
          | obj mfs =>
            obtain ⟨gs, he, _, _, _⟩ := coerceMessage_obj mfs
            rw [hcm] at he
            have hm' : m' = .obj gs := by simpa using he
            subst hm'
            have hg : lookupField (setField cfs "message" (.obj gs)) "message"
                = some (.obj gs) := lookupField_setField_self cfs "message" (.obj gs)
            have hci : coerceMessage (.obj gs) = .ok (.obj gs) :=
              coerceMessage_idem_obj mfs gs hcm
            simp [processChoice, JSON.get, hg, JSON.truthy, hci, JSON.set,
              setField_setField_self]
  | bool b =>
    cases s with
    | true => simp [processChoice, JSON.get] at h
    | false =>
      simp [processChoice, JSON.get] at h
      subst h
      simp [processChoice, JSON.get]
  | num n =>
    cases s with
    | true => simp [processChoice, JSON.get] at h
    | false =>
      simp [processChoice, JSON.get] at h
      subst h
      simp [processChoice, JSON.get]
  | str t =>
    cases s with
    | true => simp [processChoice, JSON.get] at h
    | false =>
      simp [processChoice, JSON.get] at h
      subst h
      simp [processChoice, JSON.get]
  | arr xs =>
    cases s with
    | true => simp [processChoice, JSON.get] at h
    | false =>
      simp [processChoice, JSON.get] at h
      subst h
      simp [processChoice, JSON.get]

/-- The whole loop is idempotent. -/
theorem processChoices_idem {cs cs' : List JSON} {s : Bool} {idx i0 : Nat}
    (h : processChoices cs s idx i0 = .ok cs') :
    processChoices cs' s idx i0 = .ok cs' := by
  induction cs generalizing cs' i0 with
  | nil =>
    simp [processChoices] at h
    subst h
    simp [processChoices]
  | cons c rest ih =>
    simp only [processChoices] at h
    cases hc : processChoice c s idx i0 with
    | error e => rw [hc] at h; simp at h
    | ok c1 =>
      rw [hc] at h
      cases hrest : processChoices rest s idx (i0 + 1) with
      | error e => rw [hrest] at h; simp at h
      | ok rest1 =>
        rw [hrest] at h
        simp at h
        subst h
        simp only [processChoices]
        rw [processChoice_idem hc, ih hrest]

/-- **C7**: idempotence — whenever `normalize(d, s)` succeeds with result
`r`, `normalize(r, s)` succeeds and returns `r` again; applying the
function twice equals applying it once. -/
theorem c7_idempotent (d : JSON) (s : Bool) (idx : Nat) (r : JSON)
    (h : formatLiteLLMResponse d s idx = .ok r) :
    formatLiteLLMResponse r s idx = .ok r := by
  cases d with
  | null => simp [formatLiteLLMResponse, deepClone] at h
  | obj dfs =>
    cases hv : lookupField dfs "choices" with
    | some v =>
      cases v
      case arr cs =>
        rw [format_obj_choices dfs cs s idx hv] at h
        cases hp : processChoices cs s idx 0 with
        | error e => rw [hp] at h; simp at h
        | ok cs' =>
          rw [hp] at h
          simp at h
          subst h
          have h2 : lookupField (setField dfs "choices" (.arr cs')) "choices"
              = some (.arr cs') := lookupField_setField_self dfs "choices" (.arr cs')
          rw [format_obj_choices (setField dfs "choices" (.arr cs')) cs' s idx h2,
            processChoices_idem hp]
          simp [setField_setField_self]
      all_goals {
        have hfc := format_no_choices (.obj dfs) idx (by intro hh; cases hh)
          (by intro xs hx; simp [JSON.get, hv] at hx)
        cases s with
        | true => rw [hfc.1] at h; simp at h
        | false =>
          rw [hfc.2] at h
          simp at h
          subst h
          exact hfc.2
      }
    | none =>
      have hfc := format_no_choices (.obj dfs) idx (by intro hh; cases hh)
        (by intro xs hx; simp [JSON.get, hv] at hx)
      cases s with
      | true => rw [hfc.1] at h; simp at h
      | false =>
        rw [hfc.2] at h
        simp at h
        subst h
        exact hfc.2
  | bool b =>
    have hfc := format_no_choices (.bool b) idx (by intro hh; cases hh)
      (by intro xs hx; simp [JSON.get] at hx)
    cases s with
    | true => rw [hfc.1] at h; simp at h
    | false =>
      rw [hfc.2] at h
      simp at h
      subst h
      exact hfc.2
  | num n =>
    have hfc := format_no_choices (.num n) idx (by intro hh; cases hh)
      (by intro xs hx; simp [JSON.get] at hx)
    cases s with
    | true => rw [hfc.1] at h; simp at h
    | false =>
      rw [hfc.2] at h
      simp at h
      subst h
      exact hfc.2
  | str t =>
    have hfc := format_no_choices (.str t) idx (by intro hh; cases hh)
      (by intro xs hx; simp [JSON.get] at hx)
    cases s with
    | true => rw [hfc.1] at h; simp at h
    | false =>
      rw [hfc.2] at h
      simp at h
      subst h
      exact hfc.2
  | arr xs =>
    have hfc := format_no_choices (.arr xs) idx (by intro hh; cases hh)
      (by intro ys hx; simp [JSON.get] at hx)
    cases s with
    | true => rw [hfc.1] at h; simp at h
    | false =>
      rw [hfc.2] at h
      simp at h
      subst h
      exact hfc.2

/-- Witness for C7: re-normalizing the already-normalized document of the
C2 scenario returns it unchanged. -/
theorem c7_witness : formatLiteLLMResponse c2wRes false 0 = .ok c2wRes :=
  c7_idempotent c2wDoc false 0 c2wRes rfl

/-! ## C8: the batch policy -/

/-- A successful run of the `execute` loop is a successful `processOne` on
every entry, position by position. -/
theorem execLoop_ok_pointwise {its : List (Option NodeItem)} {outs : List NodeItem}
    {opts : ExecOptions} {i0 : Nat}
    (h : execLoop its opts i0 = .ok outs) :
    outs.length = its.length ∧
      ∀ k it, its[k]? = some it →
        ∃ o, outs[k]? = some o ∧ processOne it opts (i0 + k) = .ok o := by
  induction its generalizing outs i0 with
  | nil =>
    simp [execLoop] at h
    subst h
    exact ⟨rfl, fun k it hk => by simp at hk⟩
  | cons it rest ih =>
    simp only [execLoop] at h
    cases hc : processOne it opts i0 with
    | error e => rw [hc] at h; simp at h
    | ok o1 =>
      rw [hc] at h
      cases hrest : execLoop rest opts (i0 + 1) with
      | error e => rw [hrest] at h; simp at h
      | ok outs1 =>
        rw [hrest] at h
        simp at h
        subst h
        obtain ⟨hlen, hpt⟩ := ih hrest
        refine ⟨by simp [hlen], ?_⟩
        intro k itk hk
        cases k with
        | zero =>
          simp at hk
          subst hk
          exact ⟨o1, by simp, by simpa using hc⟩
        | succ k =>
          simp at hk ⊢
          obtain ⟨o, h1, h2⟩ := hpt k itk hk
          refine ⟨o, h1, ?_⟩
          rwa [show i0 + (k + 1) = i0 + 1 + k by omega]

/-- Conversely, pointwise success of `processOne` assembles into a
successful run of the `execute` loop. -/
theorem execLoop_of_pointwise {its : List (Option NodeItem)} {outs : List NodeItem}
    {opts : ExecOptions} {i0 : Nat}
    (hlen : outs.length = its.length)
    (hpt : ∀ k it o, its[k]? = some it → outs[k]? = some o →
      processOne it opts (i0 + k) = .ok o) :
    execLoop its opts i0 = .ok outs := by
  induction its generalizing outs i0 with
  | nil =>
    cases outs with
    | nil => simp [execLoop]
    | cons o os => simp at hlen
  | cons it rest ih =>
    cases outs with
    | nil => simp at hlen
    | cons o outs' =>
      have h0 : processOne it opts i0 = .ok o := by
        simpa using hpt 0 it o (by simp) (by simp)
      have hrec : ∀ k itk ok, rest[k]? = some itk → outs'[k]? = some ok →
          processOne itk opts (i0 + 1 + k) = .ok ok := by
        intro k itk ok hk hok
        have hh := hpt (k + 1) itk ok (by simpa using hk) (by simpa using hok)
        rwa [show i0 + (k + 1) = i0 + 1 + k by omega] at hh
      simp only [execLoop]
      rw [h0, ih (by simpa using hlen) hrec]

/-- **C8**: the batch policy. With `processAllItems = false` only the first
record is processed and every remaining record is appended unchanged, in
its original order, after the processed first record. With
`processAllItems = true` the run succeeds exactly when each record,
independently and in order, processes successfully, and the output is the
per-record results in order. -/
theorem c8_batch_policy (a : NodeItem) (t : List NodeItem) (opts : ExecOptions) :
    (opts.processAllItems = false →
      ∀ x, processOne (some a) opts 0 = .ok x →
        execute (a :: t) opts = .ok (x :: t)) ∧
    (opts.processAllItems = true →
      ∀ out, execute (a :: t) opts = .ok out ↔
        (out.length = t.length + 1 ∧
         ∀ k it, (a :: t)[k]? = some it →
           ∃ o, out[k]? = some o ∧ processOne (some it) opts k = .ok o)) := by
  constructor
  · intro hpa x hx
    simp only [execute, hpa, List.head?, Bool.not_false, execLoop]
    rw [hx]
    cases t with
    | nil => simp [execLoop]
    | cons b bs => simp [execLoop]
  · intro hpa out
    constructor
    · intro hex
      simp only [execute, hpa, Bool.not_true, if_true, Bool.false_and, Bool.false_eq_true,
        if_false, List.append_nil] at hex
      cases hl : execLoop ((a :: t).map some) opts 0 with
      | error e => rw [hl] at hex; simp at hex
      | ok outs =>
        rw [hl] at hex
        simp at hex
        subst hex
        obtain ⟨hlen, hpt⟩ := execLoop_ok_pointwise hl
        refine ⟨by simpa using hlen, ?_⟩
        intro k it hk
        have hk' : ((a :: t).map some)[k]? = some (some it) := by
          rw [List.getElem?_map, hk]
          rfl
        obtain ⟨o, ho, hpo⟩ := hpt k (some it) hk'
        exact ⟨o, ho, by simpa using hpo⟩
    · rintro ⟨hlen, hpt⟩
      simp only [execute, hpa, Bool.not_true, if_true, Bool.false_and, Bool.false_eq_true,
        if_false, List.append_nil]
      have hloop : execLoop ((a :: t).map some) opts 0 = .ok out := by
        apply execLoop_of_pointwise
        · simpa using hlen
        · intro k it o hk ho
          rw [List.getElem?_map] at hk
          cases hxa : (a :: t)[k]? with
          | none => rw [hxa] at hk; simp at hk
          | some b =>
            rw [hxa] at hk
            simp at hk
            subst hk
            obtain ⟨o', ho', hpo⟩ := hpt k b hxa
            rw [ho] at ho'
            obtain rfl : o = o' := by simpa using ho'
            simpa using hpo
      rw [hloop]

def w8a : NodeItem := { json := [("data", JSON.arr [])] }

def w8b : NodeItem := { json := [("x", JSON.null)] }

def w8out : NodeItem := { json := [("data", JSON.arr [])] }

def w8optsF : ExecOptions :=
  { inputField := "data", outputField := "data", processAllItems := false, strictMode := false }

def w8optsT : ExecOptions :=
  { inputField := "data", outputField := "data", processAllItems := true, strictMode := false }

/-- Witness for C8: with `processAllItems = false` the second record passes
through untouched after the processed first; with `true` the output is
pointwise and has one entry per record. -/
theorem c8_witness :
    execute [w8a, w8b] w8optsF = .ok [w8out, w8b] ∧
    ([w8out, w8b] : List NodeItem).length = [w8b].length + 1 :=
  ⟨(c8_batch_policy w8a [w8b] w8optsF).1 rfl w8out rfl,
   (((c8_batch_policy w8a [w8b] w8optsT).2 rfl [w8out, w8b]).mp rfl).1⟩

/-! ## C9: output placement -/

def c9xItem : NodeItem := { json := [("data", JSON.arr [])], pairedItem := some (.num 0) }

def c9xOut : NodeItem := { json := [("data", JSON.arr [])] }

/-- **C9** (counterexample): a processed record whose normalization
succeeds, but whose `pairedItem` is the falsy item-index `0`, loses its
`pairedItem` in the output: the source copies `binary` and `pairedItem`
only under `if (item.binary)` / `if (item.pairedItem)`, so falsy lineage
metadata is dropped rather than preserved unchanged. -/
theorem c9_counterexample :
    execute [c9xItem] c1Opts = .ok [c9xOut] ∧
    c9xItem.pairedItem = some (.num 0) ∧
    c9xOut.pairedItem = none :=
  ⟨rfl, rfl, rfl⟩

/-- **C9** (amended): for every processed record whose input field is
truthy, parses, and normalizes successfully, the output record is the input
record with the normalization result written over the named output field of
its `json` mapping, every other `json` field preserved; `binary` and
`pairedItem` are preserved when truthy and dropped when falsy (in
particular a `pairedItem` of `0` is dropped). -/
theorem c9_output_placement (item : NodeItem) (opts : ExecOptions) (idx : Nat)
    (v doc r : JSON)
    (hv : lookupField item.json opts.inputField = some v)
    (ht : v.truthy = true)
    (hp : stringCoerce v = some doc)
    (hf : formatLiteLLMResponse doc opts.strictMode idx = .ok r) :
    processOne (some item) opts idx = .ok (mkNewItem item opts.outputField r) ∧
    lookupField (mkNewItem item opts.outputField r).json opts.outputField = some r ∧
    (∀ k, k ≠ opts.outputField →
      lookupField (mkNewItem item opts.outputField r).json k = lookupField item.json k) ∧
    (mkNewItem item opts.outputField r).binary
      = (if truthyOpt item.binary then item.binary else none) ∧
    (mkNewItem item opts.outputField r).pairedItem
      = (if truthyOpt item.pairedItem then item.pairedItem else none) := by
  refine ⟨?_, ?_, ?_, rfl, rfl⟩
  · simp [processOne, hv, ht, hp, hf]
  · simp [mkNewItem, lookupField_setField_self]
  · intro k hk
    simp [mkNewItem, lookupField_setField_ne _ _ _ _ hk]

def w9item : NodeItem :=
  { json := [("data", JSON.arr []), ("keep", JSON.num 7)],
    binary := some (.obj []), pairedItem := some (.num 5) }

/-- Witness for C9 (amended): a record with an extra `json` field, a binary
payload and a truthy `pairedItem` keeps all three. -/
theorem c9_witness :
    processOne (some w9item) c1Opts 0 = .ok (mkNewItem w9item "data" (.arr [])) ∧
    lookupField (mkNewItem w9item "data" (.arr [])).json "keep"
      = lookupField w9item.json "keep" ∧
    (mkNewItem w9item "data" (.arr [])).pairedItem = some (.num 5) := by
  obtain ⟨h1, h2, h3, h4, h5⟩ :=
    c9_output_placement w9item c1Opts 0 (.arr []) (.arr []) (.arr []) rfl rfl rfl rfl
  refine ⟨h1, h3 "keep" (by decide), ?_⟩
  have hout : c1Opts.outputField = "data" := rfl
  rw [hout] at h5
  rw [h5]
  rfl

end LiteLLM
